import Mathlib

/-!
Shallow embedding of the s-expression interpreter `lisp.ts` (lexer, cons-cell
data model, recursive-descent parser, tree-walking evaluator), together with
theorems settling the specification claims about it.

Conventions of the embedding:
* JS strings are modelled as `String` / `List Char`; scanning positions as `Nat`.
* JS exceptions are modelled by `Except String`; thrown `TypeError`s from
  reading fields of `undefined` are modelled by explicit `.error` results.
* JS `Map` objects (the evaluator contexts) are mutable and captured by
  reference, so they are modelled by a store (`Store`, a list of binding
  lists) addressed by `Nat` references; copying a map allocates a new cell.
* Recursive functions of the source whose termination is not structural are
  given explicit fuel; fuel exhaustion is a distinguished error that the
  source never produces for any input reachable in the theorems below.
-/

/-- Token kinds of the lexer: `Integer`, `Identifier` or `Syntax`. -/
inductive TokenKind where
  | integer
  | identifier
  | syn
deriving DecidableEq, Repr

/-- `class Token { value: string; kind: TokenKind }`. -/
structure Token where
  value : String
  kind : TokenKind
deriving DecidableEq, Repr

/-- `type Sexp = SexpAtom | SexpPair`; a pair is `[Sexp, Sexp | null]`,
so its first slot is a (present) `Sexp` and its second is optional. -/
inductive Sexp where
  | atom (t : Token)
  | pair (first : Sexp) (second : Option Sexp)
deriving Repr

/-- `pretty`: dotted-pair rendering; an absent second renders as `NIL`. -/
def pretty : Sexp → String
  | .atom t => t.value
  | .pair f none => ("(") ++ pretty f ++ (" . NIL)")
  | .pair f (some s) => ("(") ++ pretty f ++ (" . ") ++ pretty s ++ (")")

/-- The recursion of `append` on a present first argument. The source
recurses through `append(first.pair[1], second)` with a possibly absent
list; here the absent-tail base case (`append(null, second)`, which wraps a
present `second` as a one-element list) is inlined so the recursion is
structural on `Sexp`. -/
def appendGo : Sexp → Option Sexp → Except String Sexp
  | .atom t, second => .ok (.pair (.atom t) second)
  | .pair f none, second =>
    match second with
    | none => .error ("Expected second.")
    | some s2 => .ok (.pair f (some (.pair s2 none)))
  | .pair f (some rest), second => (appendGo rest second).map (fun r => .pair f (some r))

/-- `append(first, second)`: extends the proper list `first` with `second`
as new final tail; throws when both arguments are absent. -/
def append : Option Sexp → Option Sexp → Except String Sexp
  | none, none => .error ("Expected second.")
  | none, some s => .ok (.pair s none)
  | some f, second => appendGo f second

/-- Whitespace characters skipped by `lex`. -/
def isWhitespaceCh (c : Char) : Bool :=
  c = ' ' || c = '\n' || c = '\t' || c = '\r'

/-- `c >= '0' && c <= '9'`, the integer-lexeme character class. -/
def isDigitCh (c : Char) : Bool :=
  '0' ≤ c && c ≤ '9'

/-- First-position identifier characters: letters and the fixed operator set. -/
def isIdentStart (c : Char) : Bool :=
  ('a' ≤ c && c ≤ 'z') || ('A' ≤ c && c ≤ 'Z') ||
  c = '+' || c = '-' || c = '*' || c = '&' || c = '$' || c = '%' || c = '<' || c = '='

/-- Non-first identifier characters additionally allow digits
(`end > cursor && c >= '0' && c <= '9'` in the source loop). -/
def isIdentCont (c : Char) : Bool :=
  isIdentStart c || isDigitCh c

/-- `lexInteger`: maximal run of digits from the current position, returned as
(consumed characters, remaining characters). -/
def lexInteger (l : List Char) : List Char × List Char :=
  (l.takeWhile isDigitCh, l.dropWhile isDigitCh)

/-- `lexIdentifier`: a letter/operator character followed by the maximal run of
identifier-continuation characters; consumes nothing if the first character
does not qualify. -/
def lexIdentifier (l : List Char) : List Char × List Char :=
  match l with
  | [] => ([], [])
  | c :: rest =>
    if isIdentStart c then (c :: rest.takeWhile isIdentCont, rest.dropWhile isIdentCont)
    else ([], c :: rest)

/-- `lex`, processing the remaining suffix of the program text: skip
whitespace, emit parenthesis tokens, then try `lexInteger` and
`lexIdentifier` in that order, keeping the first that consumes characters;
otherwise fail with an unknown-token error. -/
def lexList (fuel : Nat) (l : List Char) : Except String (List Token) :=
  match fuel with
  | 0 => .error ("out of fuel")
  | fuel + 1 =>
    match l with
    | [] => .ok []
    | c :: rest =>
      if isWhitespaceCh c then lexList fuel rest
      else if c = '(' ∨ c = ')' then
        (lexList fuel rest).map (fun ts => Token.mk (String.mk [c]) .syn :: ts)
      else if (lexInteger (c :: rest)).1 ≠ [] then
        (lexList fuel (lexInteger (c :: rest)).2).map
          (fun ts => Token.mk (String.mk (lexInteger (c :: rest)).1) .integer :: ts)
      else if (lexIdentifier (c :: rest)).1 ≠ [] then
        (lexList fuel (lexIdentifier (c :: rest)).2).map
          (fun ts => Token.mk (String.mk (lexIdentifier (c :: rest)).1) .identifier :: ts)
      else .error (("Unknown token near ") ++ String.mk (c :: rest))

/-- `lex(program)` on a whole program string. Every step of `lexList`
consumes at least one character, so `length + 1` fuel always suffices. -/
def lex (program : String) : Except String (List Token) :=
  lexList (program.data.length + 1) program.data

mutual
/-- `parse(tokens, cursor)`: expects an opening parenthesis at `cursor`
(reading a token past the end of the stream is the JS `TypeError` of
accessing a field of `undefined`), then runs the sibling-collection loop. -/
def parse (fuel : Nat) (tokens : List Token) (cursor : Nat) :
    Except String (Nat × Option Sexp) :=
  match fuel with
  | 0 => .error ("out of fuel")
  | fuel + 1 =>
    match tokens[cursor]? with
    | none => .error ("TypeError: cannot read value of undefined")
    | some t =>
      if t.value = "(" then parseLoop fuel tokens (cursor + 1) none
      else .error (("Expected opening parenthesis, got ") ++ t.value)
termination_by structural fuel

/-- The `for` loop of `parse`: recurses into nested forms on `(`, returns at
`)`, appends atoms otherwise, and returns the accumulated siblings when the
token stream is exhausted. -/
def parseLoop (fuel : Nat) (tokens : List Token) (cursor : Nat)
    (siblings : Option Sexp) : Except String (Nat × Option Sexp) :=
  match fuel with
  | 0 => .error ("out of fuel")
  | fuel + 1 =>
    if cursor < tokens.length then
      if (tokens.getD cursor (Token.mk ("") .syn)).value = "(" then
        match parse fuel tokens cursor with
        | .error e => .error e
        | .ok (_, none) => .error ("Expected child.")
        | .ok (newCursor, some child) =>
          match append siblings (some child) with
          | .error e => .error e
          | .ok sib => parseLoop fuel tokens (newCursor + 1) (some sib)
      else if (tokens.getD cursor (Token.mk ("") .syn)).value = ")" then .ok (cursor, siblings)
      else
        match append siblings (some (Sexp.atom (tokens.getD cursor (Token.mk ("") .syn)))) with
        | .error e => .error e
        | .ok sib => parseLoop fuel tokens (cursor + 1) (some sib)
    else .ok (cursor, siblings)
termination_by structural fuel
end

/-- `EvalReturnType`: a Number, a Boolean, or a Callable. A Callable is
either a builtin closure (which in the source closes over the `ctx` Map of
the `evalLisp` invocation that built the builtin table, here its store
reference) or a user lambda (which captures only its parameter list and
body; it reads the context passed at call time). `undef` is the JS
`undefined` that missing-argument parameter slots are bound to. -/
inductive Value where
  | num (n : Int)
  | bool (b : Bool)
  | builtin (name : String) (ctxRef : Nat)
  | closure (params : Sexp) (body : Option Sexp)
  | undef
deriving Repr

/-- A `Context`: one JS `Map` object, as an insertion-ordered binding list. -/
abbrev Ctx := List (String × Value)

/-- The heap of `Context` objects; a `Nat` store reference models a JS
object reference, so aliasing and in-place mutation are observable. -/
abbrev Store := List Ctx

/-- `Map.get`: first binding of the key, if any. -/
def ctxGet (c : Ctx) (k : String) : Option Value :=
  match c with
  | [] => none
  | (k1, v) :: rest => if k1 = k then some v else ctxGet rest k

/-- `Map.set`: overwrite the existing binding in place, or add a new one. -/
def ctxSet (c : Ctx) (k : String) (v : Value) : Ctx :=
  match c with
  | [] => [(k, v)]
  | (k1, v1) :: rest => if k1 = k then (k, v) :: rest else (k1, v1) :: ctxSet rest k v

/-- Dereference a context: the bindings stored at `r`. -/
def storeGet (s : Store) (r : Nat) : Ctx :=
  s.getD r []

/-- Mutate the context object at `r` in place. -/
def storeSet (s : Store) (r : Nat) (c : Ctx) : Store :=
  s.set r c

/-- JS truthiness on `EvalReturnType` values: `0`, `false` and `undefined`
are falsy; functions are always truthy. -/
def truthy : Value → Bool
  | .num n => n ≠ 0
  | .bool b => b
  | .builtin _ _ => true
  | .closure _ _ => true
  | .undef => false

/-- Whether a value is a Number. -/
def isNum : Value → Bool
  | .num _ => true
  | _ => false

/-- JS `ToNumber` on the values comparable by `<=`: Booleans coerce to 0/1,
`undefined` to NaN (`none`). A Callable operand coerces to its source text,
and comparing two Callables compares those strings; no program in the
theorems below compares Callables, and this model returns `none` (hence a
`false` comparison) for them. -/
def jsToNumber : Value → Option Int
  | .num n => some n
  | .bool b => some (if b then 1 else 0)
  | _ => none

/-- JS `<=` on two values: numeric comparison after coercion; any NaN
operand makes the comparison false. -/
def jsLe (a b : Value) : Bool :=
  match jsToNumber a, jsToNumber b with
  | some x, some y => x ≤ y
  | _, _ => false

/-- Numeric value of a digit character. -/
def digitVal (c : Char) : Nat :=
  c.toNat - '0'.toNat

/-- JS unary `+` on a string of decimal digits (the only strings an
`Integer` token can carry). -/
def tokenInt (v : String) : Int :=
  Int.ofNat (v.data.foldl (fun a c => 10 * a + digitVal c) 0)

/-- The keys of the builtin table. -/
def builtinNames : List String :=
  ["<=", "if", "def", "lambda", "begin", "+", "-"]

/-- Resolving an identifier against the builtin table built with the current
context `r`: `builtins[key]` if present, else the undefined-value error. -/
def lookupBuiltin (name : String) (r : Nat) (s : Store) :
    Except String (Value × Store) :=
  if name ∈ builtinNames then .ok (.builtin name r, s)
  else .error (("Undefined value: ") ++ name)

/-- The summing loop of the `+` builtin: `res += arg` over the evaluated
arguments, failing on the first non-Number. -/
def plusFold (res : Int) : List Value → Except String Int
  | [] => .ok res
  | .num n :: rest => plusFold (res + n) rest
  | _ :: _ => .error ("+ expects number arguments.")

/-- The subtracting loop of the `-` builtin over the arguments after the
first: `res -= arg`, failing on the first non-Number. -/
def minusFold (res : Int) : List Value → Except String Int
  | [] => .ok res
  | .num n :: rest => minusFold (res - n) rest
  | _ :: _ => .error ("- expects number arguments.")

/-- The parameter-binding loop of a lambda invocation: walks the parameter
list, binding each parameter atom at context `ref` to the positionally
corresponding evaluated argument (JS indexing past the end gives
`undefined`). -/
def bindParamsGo (sx : Sexp) (vals : List Value) (i : Nat) (ref : Nat)
    (s : Store) : Except String Store :=
  match sx with
  | .pair (.atom t) rest =>
    match rest with
    | none => .ok (storeSet s ref (ctxSet (storeGet s ref) t.value (vals.getD i .undef)))
    | some nxt =>
      bindParamsGo nxt vals (i + 1) ref
        (storeSet s ref (ctxSet (storeGet s ref) t.value (vals.getD i .undef)))
  | _ => .error ("Expected argument list.")

/-- Entry to the parameter-binding loop: a `while (iter)` loop whose
iteration variable starts at the (possibly absent) parameter list. -/
def bindParams (iter : Option Sexp) (vals : List Value) (i : Nat) (ref : Nat)
    (s : Store) : Except String Store :=
  match iter with
  | none => .ok s
  | some sx => bindParamsGo sx vals i ref s

mutual
/-- `evalLisp(ast, ctx)`. A `Pair` is a call: evaluate the head, require it
truthy and Callable, require the tail to be a `Pair`, and apply. An
`Integer` atom is its numeric value. Any other atom is an identifier:
return its context binding if bound to a truthy value, otherwise fall
through to the builtin table. -/
def evalLisp (fuel : Nat) (ast : Sexp) (r : Nat) (s : Store) :
    Except String (Value × Store) :=
  match fuel with
  | 0 => .error ("out of fuel")
  | fuel + 1 =>
    match ast with
    | .pair first second =>
      match evalLisp fuel first r s with
      | .error e => .error e
      | .ok (fn, s1) =>
        if truthy fn = false then .error (("Unknown function: ") ++ pretty first)
        else
          match fn with
          | .builtin name cr =>
            match second with
            | some (.pair a0 a1) => applyBuiltin fuel name cr a0 a1 s1
            | some (.atom t) => .error (("Not a linked list: ") ++ pretty (.atom t))
            | none => .error ("Not a linked list: null")
          | .closure params body =>
            match second with
            | some (.pair a0 a1) => applyClosure fuel params body (.pair a0 a1) r s1
            | some (.atom t) => .error (("Not a linked list: ") ++ pretty (.atom t))
            | none => .error ("Not a linked list: null")
          | _ => .error (("Not a function: ") ++ pretty first)
    | .atom t =>
      if t.kind = .integer then .ok (.num (tokenInt t.value), s)
      else
        match ctxGet (storeGet s r) t.value with
        | some v => if truthy v then .ok (v, s) else lookupBuiltin t.value r s
        | none => lookupBuiltin t.value r s
termination_by structural fuel

/-- `evalLispArgs`: evaluate each element of the argument chain in order
under the given context, collecting the values; fails if the chain is not a
proper list. -/
def evalLispArgs (fuel : Nat) (args : Sexp) (r : Nat) (s : Store) :
    Except String (List Value × Store) :=
  match fuel with
  | 0 => .error ("out of fuel")
  | fuel + 1 =>
    match args with
    | .atom _ => .error ("Expected linked list.")
    | .pair a0 a1 =>
      match evalLisp fuel a0 r s with
      | .error e => .error e
      | .ok (v, s1) =>
        match a1 with
        | none => .ok ([v], s1)
        | some next =>
          match evalLispArgs fuel next r s1 with
          | .error e => .error e
          | .ok (vs, s2) => .ok (v :: vs, s2)
termination_by structural fuel

/-- Application of a builtin closure. `cr` is the context the builtin closed
over when its table was built (the second argument JS passes at the call
site is ignored by every builtin). `a0`/`a1` are `args.pair[0]` and
`args.pair[1]` of the argument `SexpPair`. -/
def applyBuiltin (fuel : Nat) (name : String) (cr : Nat) (a0 : Sexp)
    (a1 : Option Sexp) (s : Store) : Except String (Value × Store) :=
  match fuel with
  | 0 => .error ("out of fuel")
  | fuel + 1 =>
    match name with
    | "<=" =>
      match evalLispArgs fuel (.pair a0 a1) cr s with
      | .error e => .error e
      | .ok (vals, s1) => .ok (.bool (jsLe (vals.getD 0 .undef) (vals.getD 1 .undef)), s1)
    | "if" =>
      match a1 with
      | some (.pair b0 b1) =>
        match b1 with
        | some (.pair c0 _) =>
          match evalLisp fuel a0 cr s with
          | .error e => .error e
          | .ok (test, s1) =>
            if truthy test then evalLisp fuel b0 cr s1
            else evalLisp fuel c0 cr s1
        | _ => .error ("Expected a false-branch")
      | _ => .error ("Expected a true-branch")
    | "def" =>
      match a0 with
      | .atom t =>
        match a1 with
        | some (.pair b0 _) =>
          match evalLisp fuel b0 cr s with
          | .error e => .error e
          | .ok (v, s1) => .ok (v, storeSet s1 cr (ctxSet (storeGet s1 cr) t.value v))
        | _ => .error ("Expected a function body.")
      | _ => .error ("Expected a function name.")
    | "lambda" => .ok (.closure a0 a1, s)
    | "begin" => evalBegin fuel (.pair a0 a1) cr s
    | "+" =>
      match evalLispArgs fuel (.pair a0 a1) cr s with
      | .error e => .error e
      | .ok (vals, s1) =>
        match plusFold 0 vals with
        | .error e => .error e
        | .ok n => .ok (.num n, s1)
    | "-" =>
      match evalLispArgs fuel (.pair a0 a1) cr s with
      | .error e => .error e
      | .ok (vals, s1) =>
        match vals with
        | .num n :: rest =>
          match minusFold n rest with
          | .error e => .error e
          | .ok m => .ok (.num m, s1)
        | _ => .error ("- expects number arguments.")
    | _ => .error (("Unknown builtin: ") ++ name)
termination_by structural fuel

/-- The loop of the `begin` builtin: evaluate each form of the chain in
order and return the last value. -/
def evalBegin (fuel : Nat) (current : Sexp) (cr : Nat) (s : Store) :
    Except String (Value × Store) :=
  match fuel with
  | 0 => .error ("out of fuel")
  | fuel + 1 =>
    match current with
    | .atom _ => .error ("Expected linked list.")
    | .pair c0 c1 =>
      match evalLisp fuel c0 cr s with
      | .error e => .error e
      | .ok (v, s1) =>
        match c1 with
        | none => .ok (v, s1)
        | some next => evalBegin fuel next cr s1
termination_by structural fuel

/-- Invocation of a lambda Callable: evaluate the call arguments under the
call-time context, allocate a new context object initialized as a copy of
its bindings, bind the parameters there, and evaluate the implicitly
`begin`-wrapped body under the new context. -/
def applyClosure (fuel : Nat) (params : Sexp) (body : Option Sexp)
    (callArgs : Sexp) (r : Nat) (s : Store) : Except String (Value × Store) :=
  match fuel with
  | 0 => .error ("out of fuel")
  | fuel + 1 =>
    match evalLispArgs fuel callArgs r s with
    | .error e => .error e
    | .ok (vals, s1) =>
      match bindParams (some params) vals 0 s1.length (s1 ++ [storeGet s1 r]) with
      | .error e => .error e
      | .ok s2 =>
        match append (some (.atom (Token.mk ("begin") .identifier))) body with
        | .error e => .error e
        | .ok beginAst => evalLisp fuel beginAst s1.length s2
termination_by structural fuel
end

/-- The top-level re-parse loop of `main`: parse further top-level forms and
append them to the `begin` form until the cursor lands on the last token
index. -/
def mainLoop (fuel : Nat) (tokens : List Token) (cursor : Nat) (acc : Sexp) :
    Except String Sexp :=
  match fuel with
  | 0 => .error ("out of fuel")
  | fuel + 1 =>
    if cursor = tokens.length - 1 then .ok acc
    else
      match parse fuel tokens (cursor + 1) with
      | .error e => .error e
      | .ok (c2, child) =>
        match append (some acc) child with
        | .error e => .error e
        | .ok acc2 => mainLoop fuel tokens c2 acc2

/-- `main`: lex the program, wrap all top-level forms in an implicit
`begin`, and evaluate under a single fresh root context. -/
def mainRun (fuel : Nat) (program : String) : Except String Value :=
  match lex program with
  | .error e => .error e
  | .ok tokens =>
    match append (some (.atom (Token.mk ("begin") .identifier))) none with
    | .error e => .error e
    | .ok acc0 =>
      match parse fuel tokens 0 with
      | .error e => .error e
      | .ok (cursor, child) =>
        match append (some acc0) child with
        | .error e => .error e
        | .ok acc1 =>
          match mainLoop fuel tokens cursor acc1 with
          | .error e => .error e
          | .ok ast =>
            match evalLisp fuel ast 0 [[]] with
            | .error e => .error e
            | .ok (v, _) => .ok v


/-!
### Raw (untyped) runtime model for the Pair-first invariant

`Sexp` above mirrors the source type declarations, in which a Pair first
slot is statically non-absent. `RawSexp` drops that static guarantee — both
slots of a pair may hold the absence marker, as any slot of a runtime JS
object could — and `rawAppend`/`rawParse` are the same `append`/`parse`
code over this representation, so that "no constructed Pair has an absent
first" is a provable property rather than a typing assumption.
-/

/-- An s-expression node whose pair slots may each be absent. -/
inductive RawSexp where
  | atom (t : Token)
  | pair (first : Option RawSexp) (second : Option RawSexp)
deriving Repr

/-- Whether every pair node of a tree has a present first slot. -/
def firstPresent : RawSexp → Bool
  | .atom _ => true
  | .pair none _ => false
  | .pair (some f) none => firstPresent f
  | .pair (some f) (some s) => firstPresent f && firstPresent s

/-- `firstPresent` lifted to an optional tree. -/
def optFP : Option RawSexp → Bool
  | none => true
  | some x => firstPresent x

/-- `append` over the raw representation (recursion on a present first
argument, absent-tail base case inlined as in `appendGo`). -/
def rawAppendGo : RawSexp → Option RawSexp → Except String RawSexp
  | .atom t, second => .ok (.pair (some (.atom t)) second)
  | .pair f none, second =>
    match second with
    | none => .error ("Expected second.")
    | some s2 => .ok (.pair f (some (.pair (some s2) none)))
  | .pair f (some rest), second => (rawAppendGo rest second).map (fun r => .pair f (some r))

/-- `append(first, second)` over the raw representation. -/
def rawAppend : Option RawSexp → Option RawSexp → Except String RawSexp
  | none, none => .error ("Expected second.")
  | none, some s => .ok (.pair (some s) none)
  | some f, second => rawAppendGo f second

mutual
/-- `parse` over the raw representation. -/
def rawParse (fuel : Nat) (tokens : List Token) (cursor : Nat) :
    Except String (Nat × Option RawSexp) :=
  match fuel with
  | 0 => .error ("out of fuel")
  | fuel + 1 =>
    match tokens[cursor]? with
    | none => .error ("TypeError: cannot read value of undefined")
    | some t =>
      if t.value = "(" then rawParseLoop fuel tokens (cursor + 1) none
      else .error (("Expected opening parenthesis, got ") ++ t.value)
termination_by structural fuel

/-- The `for` loop of `parse` over the raw representation. -/
def rawParseLoop (fuel : Nat) (tokens : List Token) (cursor : Nat)
    (siblings : Option RawSexp) : Except String (Nat × Option RawSexp) :=
  match fuel with
  | 0 => .error ("out of fuel")
  | fuel + 1 =>
    if cursor < tokens.length then
      if (tokens.getD cursor (Token.mk ("") .syn)).value = "(" then
        match rawParse fuel tokens cursor with
        | .error e => .error e
        | .ok (_, none) => .error ("Expected child.")
        | .ok (newCursor, some child) =>
          match rawAppend siblings (some child) with
          | .error e => .error e
          | .ok sib => rawParseLoop fuel tokens (newCursor + 1) (some sib)
      else if (tokens.getD cursor (Token.mk ("") .syn)).value = ")" then .ok (cursor, siblings)
      else
        match rawAppend siblings (some (RawSexp.atom (tokens.getD cursor (Token.mk ("") .syn)))) with
        | .error e => .error e
        | .ok sib => rawParseLoop fuel tokens (cursor + 1) (some sib)
    else .ok (cursor, siblings)
termination_by structural fuel
end

/-!
### Statement-side vocabulary

The definitions below are used only to state theorems: expected parser
outputs, and the lexeme/separator grammar of the lexer claims.
-/

/-- The proper list holding the given elements in order (absent if none),
as the parse loop builds it by repeated `append`. -/
def properList : List Sexp → Option Sexp
  | [] => none
  | x :: xs => some (.pair x (properList xs))

/-- A non-empty all-whitespace separator run. -/
def sepOk (sep : List Char) : Prop :=
  sep ≠ [] ∧ ∀ c ∈ sep, isWhitespaceCh c = true

/-- `l` is a single valid lexeme whose token is `t`: a non-empty digit run
(Integer), an identifier-start character followed by continuation
characters (Identifier), or a single parenthesis (Syntax). -/
def validLexeme (l : List Char) (t : Token) : Prop :=
  (l ≠ [] ∧ (∀ c ∈ l, isDigitCh c = true) ∧ t = Token.mk (String.mk l) .integer)
  ∨ (∃ c cs, l = c :: cs ∧ isIdentStart c = true ∧ (∀ x ∈ cs, isIdentCont x = true)
      ∧ t = Token.mk (String.mk l) .identifier)
  ∨ ((l = ['('] ∨ l = [')']) ∧ t = Token.mk (String.mk l) .syn)

/-- Concatenation of (separator, lexeme) chunks. -/
def joinPieces : List (List Char × List Char) → List Char
  | [] => []
  | (sep, lx) :: rest => sep ++ (lx ++ joinPieces rest)

/-! ### Helper lemmas about the arithmetic builtins -/

theorem plusFold_map_num (ns : List Int) (acc : Int) :
    plusFold acc (ns.map Value.num) = .ok (acc + ns.sum) := by
  induction ns generalizing acc with
  | nil => simp [plusFold]
  | cons n rest ih => simp [plusFold, ih, add_assoc]

theorem plusFold_nonnum (vals : List Value) (h : ∃ v ∈ vals, isNum v = false)
    (acc : Int) : plusFold acc vals = .error ("+ expects number arguments.") := by
  induction vals generalizing acc with
  | nil => simp at h
  | cons v rest ih =>
    obtain ⟨w, hw, hnum⟩ := h
    match v with
    | .num n =>
      have hr : ∃ u ∈ rest, isNum u = false := by
        rcases List.mem_cons.mp hw with h1 | h1
        · subst h1; simp [isNum] at hnum
        · exact ⟨w, h1, hnum⟩
      simpa [plusFold] using ih hr (acc + n)
    | .bool b => simp [plusFold]
    | .builtin nm cr => simp [plusFold]
    | .closure p b => simp [plusFold]
    | .undef => simp [plusFold]

theorem minusFold_nonnum (vals : List Value) (h : ∃ v ∈ vals, isNum v = false)
    (acc : Int) : minusFold acc vals = .error ("- expects number arguments.") := by
  induction vals generalizing acc with
  | nil => simp at h
  | cons v rest ih =>
    obtain ⟨w, hw, hnum⟩ := h
    match v with
    | .num n =>
      have hr : ∃ u ∈ rest, isNum u = false := by
        rcases List.mem_cons.mp hw with h1 | h1
        · subst h1; simp [isNum] at hnum
        · exact ⟨w, h1, hnum⟩
      simpa [minusFold] using ih hr (acc - n)
    | .bool b => simp [minusFold]
    | .builtin nm cr => simp [minusFold]
    | .closure p b => simp [minusFold]
    | .undef => simp [minusFold]

/-! ### C1 -/

/-- C1, counterexample: the claim asserts `(+ )` evaluates to `0`, but a
zero-argument call form has an absent argument chain (`ast.pair[1]` is
`null`), so `evalLisp` rejects it with `Not a linked list: null` before the
`+` builtin (whose loop does start at 0) can run. -/
theorem spec_c1_counterexample :
    mainRun 50 ("(+ )") = .error ("Not a linked list: null") := rfl

/-- C1, amended: the `+` builtin evaluates every argument and sums them
(accumulator starting at the identity 0) whenever all arguments evaluate to
Numbers; `(+ a)` evaluates to `a` for a Number `a`; and `"(+ 1 2 3)"`
evaluates to `6`. However `(+ )` does not evaluate to `0`: a zero-argument
call form fails with `Not a linked list: null` (see the counterexample). -/
theorem spec_c1_amended :
    (∀ (fuel cr : Nat) (a0 : Sexp) (a1 : Option Sexp) (s : Store)
      (ns : List Int) (s1 : Store),
      evalLispArgs fuel (.pair a0 a1) cr s = .ok (ns.map Value.num, s1) →
      applyBuiltin (fuel + 1) ("+") cr a0 a1 s = .ok (.num ns.sum, s1))
    ∧ (∀ (fuel cr : Nat) (a0 : Sexp) (a1 : Option Sexp) (s : Store)
      (n : Int) (s1 : Store),
      evalLispArgs fuel (.pair a0 a1) cr s = .ok ([Value.num n], s1) →
      applyBuiltin (fuel + 1) ("+") cr a0 a1 s = .ok (.num n, s1))
    ∧ mainRun 50 ("(+ 1 2 3)") = .ok (.num 6) := by
  refine ⟨?_, ?_, rfl⟩
  · intro fuel cr a0 a1 s ns s1 h
    show (match evalLispArgs fuel (Sexp.pair a0 a1) cr s with
      | Except.error e => Except.error e
      | Except.ok (vals, s2) =>
        match plusFold 0 vals with
        | Except.error e => Except.error e
        | Except.ok n => Except.ok (Value.num n, s2)) = _
    rw [h]
    simp [plusFold_map_num]
  · intro fuel cr a0 a1 s n s1 h
    show (match evalLispArgs fuel (Sexp.pair a0 a1) cr s with
      | Except.error e => Except.error e
      | Except.ok (vals, s2) =>
        match plusFold 0 vals with
        | Except.error e => Except.error e
        | Except.ok n => Except.ok (Value.num n, s2)) = _
    rw [h]
    simp [plusFold]

/-- C1, witness: the amended theorem applied to the concrete argument chain
`1 2 3` in a one-context store. -/
theorem spec_c1_witness :
    applyBuiltin 11 ("+") 0 (.atom (Token.mk ("1") .integer))
      (some (.pair (.atom (Token.mk ("2") .integer))
        (some (.pair (.atom (Token.mk ("3") .integer)) none)))) [[]]
      = .ok (.num 6, [[]]) :=
  spec_c1_amended.1 10 0 _ _ [[]] [1, 2, 3] [[]] rfl

/-! ### C2 -/

/-- C2: the `if` builtin first requires the then- and else-slots to be
structurally present (failing with the branch errors otherwise), then
evaluates the test and evaluates exactly the selected branch: the result
(value and store) is literally that of evaluating the chosen branch in the
post-test store, so the unselected branch is never evaluated and none of
its effects occur. -/
theorem spec_c2_if :
    (∀ (fuel cr : Nat) (a0 : Sexp) (s : Store),
      applyBuiltin (fuel + 1) ("if") cr a0 none s = .error ("Expected a true-branch"))
    ∧ (∀ (fuel cr : Nat) (a0 : Sexp) (t : Token) (s : Store),
      applyBuiltin (fuel + 1) ("if") cr a0 (some (.atom t)) s
        = .error ("Expected a true-branch"))
    ∧ (∀ (fuel cr : Nat) (a0 thn : Sexp) (s : Store),
      applyBuiltin (fuel + 1) ("if") cr a0 (some (.pair thn none)) s
        = .error ("Expected a false-branch"))
    ∧ (∀ (fuel cr : Nat) (a0 thn : Sexp) (t : Token) (s : Store),
      applyBuiltin (fuel + 1) ("if") cr a0 (some (.pair thn (some (.atom t)))) s
        = .error ("Expected a false-branch"))
    ∧ (∀ (fuel cr : Nat) (a0 thn els : Sexp) (rest : Option Sexp) (tv : Value)
      (s s1 : Store),
      evalLisp fuel a0 cr s = .ok (tv, s1) →
      applyBuiltin (fuel + 1) ("if") cr a0 (some (.pair thn (some (.pair els rest)))) s
        = if truthy tv then evalLisp fuel thn cr s1 else evalLisp fuel els cr s1) := by
  refine ⟨fun _ _ _ _ => rfl, fun _ _ _ _ _ => rfl, fun _ _ _ _ _ => rfl,
    fun _ _ _ _ _ _ => rfl, ?_⟩
  intro fuel cr a0 thn els rest tv s s1 h
  show (match evalLisp fuel a0 cr s with
    | Except.error e => Except.error e
    | Except.ok (test, s2) =>
      if truthy test then evalLisp fuel thn cr s2 else evalLisp fuel els cr s2) = _
  rw [h]

/-- C2, witness: `(if 1 10 20)`-shaped arguments with test value `1`
evaluate to the then-branch value `10`. -/
theorem spec_c2_witness :
    applyBuiltin 5 ("if") 0 (.atom (Token.mk ("1") .integer))
      (some (.pair (.atom (Token.mk ("10") .integer))
        (some (.pair (.atom (Token.mk ("20") .integer)) none)))) [[]]
      = .ok (.num 10, [[]]) :=
  spec_c2_if.2.2.2.2 4 0 (.atom (Token.mk ("1") .integer))
    (.atom (Token.mk ("10") .integer)) (.atom (Token.mk ("20") .integer))
    none (Value.num 1) [[]] [[]] rfl

/-! ### C3 -/

/-- C3: an identifier atom whose context binding is the falsy Number `0` or
Boolean `false` evaluates exactly like an unbound identifier — both reduce
to the same builtin-table resolution (`lookupBuiltin`), which yields the
builtin Callable for the seven builtin names and the undefined-value error
for every other name. -/
theorem spec_c3_falsy_lookup :
    (∀ (fuel r : Nat) (s : Store) (name : String) (v : Value),
      ctxGet (storeGet s r) name = some v → v = .num 0 ∨ v = .bool false →
      evalLisp (fuel + 1) (.atom (Token.mk name .identifier)) r s = lookupBuiltin name r s)
    ∧ (∀ (fuel r : Nat) (s : Store) (name : String),
      ctxGet (storeGet s r) name = none →
      evalLisp (fuel + 1) (.atom (Token.mk name .identifier)) r s = lookupBuiltin name r s)
    ∧ (∀ (name : String) (r : Nat) (s : Store),
      name ∉ builtinNames →
      lookupBuiltin name r s = .error (("Undefined value: ") ++ name)) := by
  refine ⟨?_, ?_, ?_⟩
  · intro fuel r s name v hget hv
    show (match ctxGet (storeGet s r) name with
      | some v => if truthy v = true then Except.ok (v, s) else lookupBuiltin name r s
      | none => lookupBuiltin name r s) = _
    rw [hget]
    rcases hv with rfl | rfl <;> rfl
  · intro fuel r s name hget
    show (match ctxGet (storeGet s r) name with
      | some v => if truthy v = true then Except.ok (v, s) else lookupBuiltin name r s
      | none => lookupBuiltin name r s) = _
    rw [hget]
  · intro name r s h
    simp [lookupBuiltin, h]

/-- C3, witness: `x` bound to `0` resolves through the builtin table and
fails with the undefined-value error. -/
theorem spec_c3_witness :
    evalLisp 5 (.atom (Token.mk ("x") .identifier)) 0 [[(("x" : String), Value.num 0)]]
      = .error ("Undefined value: x") :=
  (spec_c3_falsy_lookup.1 4 0 [[(("x" : String), Value.num 0)]] ("x") (Value.num 0)
    rfl (Or.inl rfl)).trans rfl

/-! ### C5 -/

/-- C5, counterexample: the claim asserts every arithmetic or comparison
builtin fails on a non-Number argument, but `<=` performs no type check: in
`(<= (<= 1 2) 2)` its first argument evaluates to the Boolean `true`, and
the program succeeds with `true` (JS coerces `true` to `1`). -/
theorem spec_c5_counterexample :
    mainRun 50 ("(<= (<= 1 2) 2)") = .ok (.bool true) := rfl

/-- C5, amended: `+` and `-` fail with the expects-number `EvalError`
whenever some evaluated argument is not a Number, but `<=` does not: it
returns the Boolean of a JS coercing comparison of its first two evaluated
arguments, never a type error; on two Numbers that comparison is the
numeric less-or-equal. -/
theorem spec_c5_amended :
    (∀ (fuel cr : Nat) (a0 : Sexp) (a1 : Option Sexp) (s : Store)
      (vals : List Value) (s1 : Store),
      evalLispArgs fuel (.pair a0 a1) cr s = .ok (vals, s1) →
      (∃ v ∈ vals, isNum v = false) →
      applyBuiltin (fuel + 1) ("+") cr a0 a1 s = .error ("+ expects number arguments."))
    ∧ (∀ (fuel cr : Nat) (a0 : Sexp) (a1 : Option Sexp) (s : Store)
      (vals : List Value) (s1 : Store),
      evalLispArgs fuel (.pair a0 a1) cr s = .ok (vals, s1) →
      (∃ v ∈ vals, isNum v = false) →
      applyBuiltin (fuel + 1) ("-") cr a0 a1 s = .error ("- expects number arguments."))
    ∧ (∀ (fuel cr : Nat) (a0 : Sexp) (a1 : Option Sexp) (s : Store)
      (vals : List Value) (s1 : Store),
      evalLispArgs fuel (.pair a0 a1) cr s = .ok (vals, s1) →
      applyBuiltin (fuel + 1) ("<=") cr a0 a1 s
        = .ok (.bool (jsLe (vals.getD 0 .undef) (vals.getD 1 .undef)), s1))
    ∧ (∀ x y : Int, jsLe (.num x) (.num y) = decide (x ≤ y)) := by
  refine ⟨?_, ?_, ?_, fun x y => rfl⟩
  · intro fuel cr a0 a1 s vals s1 h hex
    show (match evalLispArgs fuel (Sexp.pair a0 a1) cr s with
      | Except.error e => Except.error e
      | Except.ok (vals2, s2) =>
        match plusFold 0 vals2 with
        | Except.error e => Except.error e
        | Except.ok n => Except.ok (Value.num n, s2)) = _
    rw [h]
    show (match plusFold 0 vals with
      | Except.error e => Except.error e
      | Except.ok n => Except.ok (Value.num n, s1)) = _
    rw [plusFold_nonnum vals hex 0]
  · intro fuel cr a0 a1 s vals s1 h hex
    show (match evalLispArgs fuel (Sexp.pair a0 a1) cr s with
      | Except.error e => Except.error e
      | Except.ok (vals2, s2) =>
        match vals2 with
        | Value.num n :: rest =>
          match minusFold n rest with
          | Except.error e => Except.error e
          | Except.ok m => Except.ok (Value.num m, s2)
        | _ => Except.error ("- expects number arguments.")) = _
    rw [h]
    show (match vals with
      | Value.num n :: rest =>
        match minusFold n rest with
        | Except.error e => Except.error e
        | Except.ok m => Except.ok (Value.num m, s1)
      | _ => Except.error ("- expects number arguments.")) = _
    match vals, hex with
    | [], hex => simp at hex
    | Value.num n :: rest, hex =>
      have hr : ∃ u ∈ rest, isNum u = false := by
        obtain ⟨w, hw, hnum⟩ := hex
        rcases List.mem_cons.mp hw with h1 | h1
        · subst h1; simp [isNum] at hnum
        · exact ⟨w, h1, hnum⟩
      show (match minusFold n rest with
        | Except.error e => Except.error e
        | Except.ok m => Except.ok (Value.num m, s1)) = _
      rw [minusFold_nonnum rest hr n]
    | Value.bool b :: rest, hex => rfl
    | Value.builtin nm cr2 :: rest, hex => rfl
    | Value.closure p b :: rest, hex => rfl
    | Value.undef :: rest, hex => rfl
  · intro fuel cr a0 a1 s vals s1 h
    show (match evalLispArgs fuel (Sexp.pair a0 a1) cr s with
      | Except.error e => Except.error e
      | Except.ok (vals2, s2) =>
        Except.ok (Value.bool (jsLe (vals2.getD 0 .undef) (vals2.getD 1 .undef)), s2)) = _
    rw [h]

/-- C5, witness: `+` applied to an argument chain evaluating to the Boolean
`true` fails with the expects-number error. -/
theorem spec_c5_witness :
    applyBuiltin 6 ("+") 0 (.atom (Token.mk ("b") .identifier)) none
      [[(("b" : String), Value.bool true)]]
      = .error ("+ expects number arguments.") :=
  spec_c5_amended.1 5 0 (.atom (Token.mk ("b") .identifier)) none
    [[(("b" : String), Value.bool true)]] [Value.bool true]
    [[(("b" : String), Value.bool true)]] rfl ⟨Value.bool true, by simp, rfl⟩

/-! ### C10 -/

/-- C10: calling `parse` with the cursor at or past the end of the token
sequence fails with the modelled `TypeError` (reading `.value` of
`undefined`) rather than returning an absent result; consequently the
top-level driver fails on an empty program and on a whitespace-only program
(whose token sequences are empty) with that same pre-evaluation parse
error. -/
theorem spec_c10_empty_stream_fails :
    (∀ (tokens : List Token) (cursor fuel : Nat), tokens.length ≤ cursor →
      parse (fuel + 1) tokens cursor = .error ("TypeError: cannot read value of undefined"))
    ∧ mainRun 50 ("") = .error ("TypeError: cannot read value of undefined")
    ∧ mainRun 50 (" \n\t ") = .error ("TypeError: cannot read value of undefined") := by
  refine ⟨?_, rfl, rfl⟩
  intro tokens cursor fuel h
  have hnone : tokens[cursor]? = none := by
    rw [List.getElem?_eq_none_iff]
    exact h
  show (match tokens[cursor]? with
    | none => Except.error ("TypeError: cannot read value of undefined")
    | some t =>
      if t.value = "(" then parseLoop fuel tokens (cursor + 1) none
      else Except.error (("Expected opening parenthesis, got ") ++ t.value)) = _
  rw [hnone]

/-- C10, witness: parsing the empty token sequence at cursor 7 fails with
the modelled `TypeError`. -/
theorem spec_c10_witness :
    parse 3 [] 7 = .error ("TypeError: cannot read value of undefined") :=
  spec_c10_empty_stream_fails.1 [] 7 2 (by simp)

/-! ### C4 -/

theorem storeGet_storeSet_ne (s : Store) (r : Nat) (c : Ctx) (q : Nat) (h : q ≠ r) :
    storeGet (storeSet s r c) q = storeGet s q := by
  induction s generalizing r q with
  | nil => simp [storeGet, storeSet]
  | cons c0 rest ih =>
    match r, q with
    | 0, 0 => simp at h
    | 0, q + 1 => simp [storeGet, storeSet, List.getD]
    | r + 1, 0 => simp [storeGet, storeSet, List.getD]
    | r + 1, q + 1 =>
      have hqr : q ≠ r := by omega
      simpa [storeGet, storeSet, List.getD] using ih r q hqr

theorem storeGet_append_self (s : Store) (c : Ctx) :
    storeGet (s ++ [c]) s.length = c := by
  induction s with
  | nil => simp [storeGet]
  | cons c0 rest ih => simp [storeGet, List.getD]

theorem storeGet_append_lt (s : Store) (c : Ctx) (r : Nat) (h : r < s.length) :
    storeGet (s ++ [c]) r = storeGet s r := by
  induction s generalizing r with
  | nil => simp at h
  | cons c0 rest ih =>
    match r with
    | 0 => simp [storeGet, List.getD]
    | r + 1 =>
      have : r < rest.length := by simpa using h
      simpa [storeGet, List.getD] using ih r this

theorem bindParamsGo_frame (sx : Sexp) (vals : List Value) (i ref : Nat) (s : Store) :
    ∀ s2, bindParamsGo sx vals i ref s = .ok s2 →
    ∀ q, q ≠ ref → storeGet s2 q = storeGet s q := by
  induction sx, vals, i, ref, s using bindParamsGo.induct
  · intro s2 h q hq
    simp only [bindParamsGo] at h
    injection h with h
    subst h
    exact storeGet_storeSet_ne _ _ _ _ hq
  · rename_i ih
    intro s2 h q hq
    simp only [bindParamsGo] at h
    rw [ih s2 h q hq]
    exact storeGet_storeSet_ne _ _ _ _ hq
  · intro s2 h q hq
    simp only [bindParamsGo] at h
    simp at h

/-- C4, counterexample: a lambda call after which a binding of the caller's
Context has changed. The caller's Context (reference 0) binds `x` to `3`
and `d` to the `def` builtin captured earlier over that same Context (as
`(def d def)` produces). Invoking `(lambda (y) (d x 5))` with argument `2`
evaluates `(d x 5)` in the body: `d` runs `def` against its captured
Context — the caller's — so after the call the caller's `x` is `5`, not
`3`. The same scenario end-to-end: the program
`(def x 3) (def d def) ((lambda (y) (d x 5)) 2) (+ x 0)` prints `5`. -/
theorem spec_c4_counterexample :
    ctxGet (storeGet [[(("x" : String), Value.num 3),
      (("d" : String), Value.builtin ("def") 0)]] 0) ("x") = some (Value.num 3)
    ∧ (applyClosure 20 (.pair (.atom (Token.mk ("y") .identifier)) none)
        (some (.pair (.pair (.atom (Token.mk ("d") .identifier))
          (some (.pair (.atom (Token.mk ("x") .identifier))
            (some (.pair (.atom (Token.mk ("5") .integer)) none))))) none))
        (.pair (.atom (Token.mk ("2") .integer)) none) 0
        [[(("x" : String), Value.num 3), (("d" : String), Value.builtin ("def") 0)]]).map
        (fun p => (p.1, ctxGet (storeGet p.2 0) ("x")))
      = .ok (Value.num 5, some (Value.num 5))
    ∧ mainRun 60 ("(def x 3) (def d def) ((lambda (y) (d x 5)) 2) (+ x 0)")
      = .ok (.num 5) :=
  ⟨rfl, rfl, rfl⟩

/-- C4, amended: invoking a lambda Callable allocates a fresh Context
(reference `s1.length`, distinct from every existing reference) initialized
as a copy of the call-time Context's bindings, and the parameter-binding
loop mutates only that fresh Context — every other Context in the store is
unchanged by parameter binding. The caller's Context is however not in
general unchanged after the whole call: a `def` reached through a builtin
value that captured the caller's Context mutates it (see the
counterexample), so "snapshot" holds for the new Context's creation but
not as isolation of the caller. -/
theorem spec_c4_amended :
    (∀ (iter : Option Sexp) (vals : List Value) (i ref : Nat) (s s2 : Store),
      bindParams iter vals i ref s = .ok s2 →
      ∀ q : Nat, q ≠ ref → storeGet s2 q = storeGet s q)
    ∧ (∀ (fuel : Nat) (params : Sexp) (body : Option Sexp) (args : Sexp)
        (r : Nat) (s : Store) (vals : List Value) (s1 : Store),
      evalLispArgs fuel args r s = .ok (vals, s1) →
      applyClosure (fuel + 1) params body args r s
        = match bindParams (some params) vals 0 s1.length (s1 ++ [storeGet s1 r]) with
          | .error e => .error e
          | .ok s2 => evalLisp fuel
              (.pair (.atom (Token.mk ("begin") .identifier)) body) s1.length s2)
    ∧ (∀ (s1 : Store) (c : Ctx), storeGet (s1 ++ [c]) s1.length = c)
    ∧ (∀ (s1 : Store) (c : Ctx) (r : Nat), r < s1.length →
        storeGet (s1 ++ [c]) r = storeGet s1 r) := by
  refine ⟨?_, ?_, storeGet_append_self, storeGet_append_lt⟩
  · intro iter vals i ref s s2 h q hq
    match iter with
    | none =>
      simp only [bindParams] at h
      injection h with h
      subst h
      rfl
    | some sx =>
      simp only [bindParams] at h
      exact bindParamsGo_frame sx vals i ref s s2 h q hq
  · intro fuel params body args r s vals s1 h
    show (match evalLispArgs fuel args r s with
      | Except.error e => Except.error e
      | Except.ok (vals2, s2) =>
        match bindParams (some params) vals2 0 s2.length (s2 ++ [storeGet s2 r]) with
        | Except.error e => Except.error e
        | Except.ok s3 =>
          match append (some (.atom (Token.mk ("begin") .identifier))) body with
          | Except.error e => Except.error e
          | Except.ok beginAst => evalLisp fuel beginAst s2.length s3) = _
    rw [h]
    show (match bindParams (some params) vals 0 s1.length (s1 ++ [storeGet s1 r]) with
      | Except.error e => Except.error e
      | Except.ok s3 =>
        match append (some (Sexp.atom (Token.mk ("begin") .identifier))) body with
        | Except.error e => Except.error e
        | Except.ok beginAst => evalLisp fuel beginAst s1.length s3) = _
    cases hb : bindParams (some params) vals 0 s1.length (s1 ++ [storeGet s1 r]) with
    | error e => rfl
    | ok s3 => rfl

/-- C4, witness: binding parameter `y` in the fresh Context 1 leaves
Context 0 unchanged. -/
theorem spec_c4_witness :
    storeGet [[(("a" : String), Value.num 7)], [(("y" : String), Value.num 2)]] 0
      = storeGet [[(("a" : String), Value.num 7)], []] 0 :=
  spec_c4_amended.1 (some (.pair (.atom (Token.mk ("y") .identifier)) none))
    [Value.num 2] 0 1 [[(("a" : String), Value.num 7)], []]
    [[(("a" : String), Value.num 7)], [(("y" : String), Value.num 2)]] rfl 0 (by decide)

/-! ### C7 -/

theorem append_properList (l : List Sexp) (x : Sexp) :
    ∃ r, append (properList l) (some x) = .ok r ∧ properList (l ++ [x]) = some r := by
  induction l with
  | nil => exact ⟨.pair x none, rfl, rfl⟩
  | cons y ys ih =>
    obtain ⟨r, hap, hpl⟩ := ih
    cases ys with
    | nil => exact ⟨.pair y (some (.pair x none)), rfl, rfl⟩
    | cons z zs =>
      refine ⟨.pair y (some r), ?_, ?_⟩
      · simp only [properList, append] at hap ⊢
        simp only [appendGo]
        rw [hap]
        rfl
      · simp only [properList] at hpl ⊢
        rw [hpl]

theorem drop_cons_access (ts : List Token) (c : Nat) (t : Token) (rem : List Token)
    (h : ts.drop c = t :: rem) :
    c < ts.length ∧ ts.getD c (Token.mk ("") .syn) = t ∧ ts.drop (c + 1) = rem := by
  induction ts generalizing c with
  | nil => simp at h
  | cons a as ih =>
    cases c with
    | zero =>
      simp only [List.drop] at h
      injection h with h1 h2
      subst h1
      refine ⟨by simp, by simp [List.getD], by simpa using h2⟩
    | succ c2 =>
      have h2 : as.drop c2 = t :: rem := by simpa using h
      obtain ⟨hlt, hget, hdr⟩ := ih c2 h2
      refine ⟨by simpa using Nat.succ_lt_succ hlt, by simpa [List.getD] using hget, ?_⟩
      simpa using hdr

theorem parseLoop_flat (rem : List Token) :
    ∀ (fuel cursor : Nat) (tokens : List Token) (l : List Sexp),
    tokens.drop cursor = rem → cursor ≤ tokens.length →
    (∀ t ∈ rem, t.value ≠ "(" ∧ t.value ≠ ")") →
    rem.length + 1 ≤ fuel →
    parseLoop fuel tokens cursor (properList l)
      = .ok (tokens.length, properList (l ++ rem.map Sexp.atom)) := by
  induction rem with
  | nil =>
    intro fuel cursor tokens l hdrop hle hpar hfuel
    obtain ⟨f, rfl⟩ : ∃ f, fuel = f + 1 := ⟨fuel - 1, by omega⟩
    have hcur : tokens.length ≤ cursor := by
      by_contra hc
      push_neg at hc
      have := List.drop_eq_nil_iff.mp hdrop
      omega
    simp only [parseLoop]
    rw [if_neg (by omega)]
    have : cursor = tokens.length := by omega
    simp [this]
  | cons t rem2 ih =>
    intro fuel cursor tokens l hdrop hle hpar hfuel
    obtain ⟨f, rfl⟩ : ∃ f, fuel = f + 1 := ⟨fuel - 1, by omega⟩
    obtain ⟨hlt, hget, hdrop2⟩ := drop_cons_access tokens cursor t rem2 hdrop
    have hv := hpar t (by simp)
    obtain ⟨r, hap, hpl⟩ := append_properList l (.atom t)
    simp only [parseLoop]
    rw [if_pos hlt, hget, if_neg hv.1, if_neg hv.2, hap]
    show parseLoop f tokens (cursor + 1) (some r)
      = .ok (tokens.length, properList (l ++ (t :: rem2).map Sexp.atom))
    rw [← hpl]
    have := ih f (cursor + 1) tokens (l ++ [Sexp.atom t]) hdrop2 (by omega)
      (fun u hu => hpar u (by simp [hu])) (by simpa using hfuel)
    simpa [List.append_assoc] using this

/-- C7, counterexample: the token stream `( (` is exhausted before the
closing parenthesis matching the first `(`, yet `parse` raises `Expected
child.` (the nested unterminated form returned an absent result) instead of
returning the partially built list. -/
theorem spec_c7_counterexample :
    parse 9 [Token.mk ("(") .syn, Token.mk ("(") .syn] 0 = .error ("Expected child.") := rfl

/-- C7, amended: when the token stream is exhausted before the matching
closing parenthesis, `parse` returns the partially built list with the
final cursor and no error, provided no nested parenthesized form yields an
absent result; in particular for every flat unterminated form — an opening
parenthesis followed only by non-parenthesis atom tokens — it returns the
proper list of those atoms and the cursor one past the last token. A nested
form that produces an absent result (such as the unterminated `((`) instead
raises `Expected child.` (see the counterexample). -/
theorem spec_c7_amended :
    ∀ (rest : List Token) (fuel : Nat),
    (∀ t ∈ rest, t.value ≠ "(" ∧ t.value ≠ ")") →
    rest.length + 2 ≤ fuel →
    parse fuel (Token.mk ("(") .syn :: rest) 0
      = .ok (rest.length + 1, properList (rest.map Sexp.atom)) := by
  intro rest fuel hpar hfuel
  obtain ⟨f, rfl⟩ : ∃ f, fuel = f + 1 := ⟨fuel - 1, by omega⟩
  simp only [parse, List.getElem?_cons_zero]
  show parseLoop f (Token.mk ("(") .syn :: rest) (0 + 1) none
    = .ok (rest.length + 1, properList (rest.map Sexp.atom))
  have := parseLoop_flat rest f 1 (Token.mk ("(") .syn :: rest) [] (by simp)
    (by simp) hpar (by omega)
  simpa [properList] using this

/-- C7, witness: the flat unterminated form `( a` parses to the one-element
partial list with final cursor 2. -/
theorem spec_c7_witness :
    parse 5 [Token.mk ("(") .syn, Token.mk ("a") .identifier] 0
      = .ok (2, some (.pair (.atom (Token.mk ("a") .identifier)) none)) :=
  spec_c7_amended [Token.mk ("a") .identifier] 5 (by decide) (by decide)

/-! ### C9 -/

theorem rawAppendGo_fp (f : RawSexp) (second : Option RawSexp) :
    ∀ r, firstPresent f = true → optFP second = true →
    rawAppendGo f second = .ok r → firstPresent r = true := by
  induction f, second using rawAppendGo.induct
  · rename_i t second
    intro r h1 h2 h
    simp only [rawAppendGo] at h
    injection h with h
    subst h
    cases second with
    | none => simp [firstPresent]
    | some s2 => simpa [firstPresent, optFP] using h2
  · rename_i f
    intro r h1 h2 h
    simp only [rawAppendGo] at h
    simp at h
  · rename_i f s2
    intro r h1 h2 h
    simp only [rawAppendGo] at h
    injection h with h
    subst h
    cases f with
    | none => simp [firstPresent] at h1
    | some f2 =>
      simp only [firstPresent] at h1 ⊢
      simp only [optFP] at h2
      simp [h1, h2]
  · rename_i f rest second ih
    intro r h1 h2 h
    simp only [rawAppendGo] at h
    cases hg : rawAppendGo rest second with
    | error e => rw [hg] at h; simp [Except.map] at h
    | ok r2 =>
      rw [hg] at h
      simp only [Except.map] at h
      injection h with h
      subst h
      cases f with
      | none => simp [firstPresent] at h1
      | some f2 =>
        simp only [firstPresent] at h1 ⊢
        have hrest : firstPresent rest = true := by
          cases hf2 : firstPresent f2 <;> rw [hf2] at h1 <;> simp at h1
          · exact h1
        have := ih r2 hrest h2 hg
        simp only [Bool.and_eq_true] at h1
        simp [h1.1, this]

theorem rawAppend_fp (first second : Option RawSexp) (r : RawSexp)
    (h1 : optFP first = true) (h2 : optFP second = true)
    (h : rawAppend first second = .ok r) : firstPresent r = true := by
  match first with
  | none =>
    match second with
    | none => simp [rawAppend] at h
    | some s2 =>
      simp only [rawAppend] at h
      injection h with h
      subst h
      simpa [firstPresent, optFP] using h2
  | some f =>
    simp only [rawAppend] at h
    exact rawAppendGo_fp f second r (by simpa [optFP] using h1) h2 h

theorem rawParse_fp (fuel : Nat) :
    (∀ (tokens : List Token) (cursor n : Nat) (res : Option RawSexp),
      rawParse fuel tokens cursor = .ok (n, res) → optFP res = true)
    ∧ (∀ (tokens : List Token) (cursor : Nat) (sib : Option RawSexp) (n : Nat)
        (res : Option RawSexp), optFP sib = true →
      rawParseLoop fuel tokens cursor sib = .ok (n, res) → optFP res = true) := by
  induction fuel with
  | zero =>
    constructor
    · intro tokens cursor n res h
      simp [rawParse] at h
    · intro tokens cursor sib n res hsib h
      simp [rawParseLoop] at h
  | succ f ih =>
    obtain ⟨ihp, ihl⟩ := ih
    constructor
    · intro tokens cursor n res h
      simp only [rawParse] at h
      cases ht : tokens[cursor]? with
      | none => rw [ht] at h; simp at h
      | some t =>
        rw [ht] at h
        dsimp only at h
        by_cases hv : t.value = "("
        · rw [if_pos hv] at h
          exact ihl tokens (cursor + 1) none n res rfl h
        · rw [if_neg hv] at h
          simp at h
    · intro tokens cursor sib n res hsib h
      simp only [rawParseLoop] at h
      by_cases hc : cursor < tokens.length
      · rw [if_pos hc] at h
        by_cases hv : (tokens.getD cursor (Token.mk ("") .syn)).value = "("
        · rw [if_pos hv] at h
          split at h
          · exact absurd h (by simp)
          · exact absurd h (by simp)
          · rename_i newCursor child heq
            have hch : firstPresent child = true := by
              simpa [optFP] using ihp tokens cursor newCursor (some child) heq
            split at h
            · exact absurd h (by simp)
            · rename_i sib2 heq2
              have hs2 : optFP (some sib2) = true := by
                simpa [optFP] using
                  rawAppend_fp sib (some child) sib2 hsib (by simpa [optFP] using hch) heq2
              exact ihl tokens (newCursor + 1) (some sib2) n res hs2 h
        · rw [if_neg hv] at h
          by_cases hv2 : (tokens.getD cursor (Token.mk ("") .syn)).value = ")"
          · rw [if_pos hv2] at h
            injection h with h
            injection h with h1 h2
            subst h2
            exact hsib
          · rw [if_neg hv2] at h
            split at h
            · exact absurd h (by simp)
            · rename_i sib2 heq2
              have hs2 : optFP (some sib2) = true := by
                simpa [optFP] using
                  rawAppend_fp sib _ sib2 hsib (by simp [optFP, firstPresent]) heq2
              exact ihl tokens (cursor + 1) (some sib2) n res hs2 h
      · rw [if_neg hc] at h
        injection h with h
        injection h with h1 h2
        subst h2
        exact hsib

/-- C9: over the raw (untyped) representation in which a pair slot may hold
the absence marker, every tree `append` returns (from inputs satisfying the
invariant) and every tree `parse` returns has a present `first` in every
pair node — only `second` is ever absent. -/
theorem spec_c9_first_present :
    (∀ (first second : Option RawSexp) (r : RawSexp),
      optFP first = true → optFP second = true →
      rawAppend first second = .ok r → firstPresent r = true)
    ∧ (∀ (fuel : Nat) (tokens : List Token) (cursor n : Nat) (res : Option RawSexp),
      rawParse fuel tokens cursor = .ok (n, res) → optFP res = true) :=
  ⟨rawAppend_fp, fun fuel => (rawParse_fp fuel).1⟩

/-- C9, witness: appending an atom to the absent list and parsing `(1)`
both yield trees whose pair nodes all have a present first slot. -/
theorem spec_c9_witness :
    firstPresent (.pair (some (.atom (Token.mk ("a") .identifier))) none) = true
    ∧ optFP (some (.pair (some (.atom (Token.mk ("1") .integer))) none)) = true :=
  ⟨spec_c9_first_present.1 none (some (.atom (Token.mk ("a") .identifier)))
      (.pair (some (.atom (Token.mk ("a") .identifier))) none) rfl rfl rfl,
    spec_c9_first_present.2 9
      [Token.mk ("(") .syn, Token.mk ("1") .integer, Token.mk (")") .syn] 0 2
      (some (.pair (some (.atom (Token.mk ("1") .integer))) none)) rfl⟩

/-! ### C6 -/

theorem map_eq_ok {α β : Type} (g : α → β) (e : Except String α) (b : β)
    (h : Except.map g e = .ok b) : ∃ a, e = .ok a ∧ g a = b := by
  cases e with
  | error e2 => simp [Except.map] at h
  | ok a =>
    simp only [Except.map] at h
    injection h with h
    exact ⟨a, rfl, h⟩

theorem lexList_ok_no_dot (fuel : Nat) :
    ∀ (l : List Char) (ts : List Token), lexList fuel l = .ok ts → ('.' : Char) ∉ l := by
  induction fuel with
  | zero => intro l ts h; simp [lexList] at h
  | succ f ih =>
    intro l ts h
    cases l with
    | nil => simp
    | cons c rest =>
      simp only [lexList] at h
      by_cases hws : isWhitespaceCh c = true
      · rw [if_pos hws] at h
        have hcne : c ≠ '.' := by
          rcases (by simpa [isWhitespaceCh] using hws :
            ((c = ' ' ∨ c = '\n') ∨ c = '\t') ∨ c = '\r') with ((rfl | rfl) | rfl) | rfl <;>
            decide
        intro hmem
        rcases List.mem_cons.mp hmem with heq | hmem2
        · exact hcne heq.symm
        · exact ih rest ts h hmem2
      · rw [if_neg hws] at h
        by_cases hpar : c = '(' ∨ c = ')'
        · rw [if_pos hpar] at h
          obtain ⟨ts2, hts2, _⟩ := map_eq_ok _ _ _ h
          have hcne : c ≠ '.' := by
            rcases hpar with rfl | rfl <;> decide
          intro hmem
          rcases List.mem_cons.mp hmem with heq | hmem2
          · exact hcne heq.symm
          · exact ih rest ts2 hts2 hmem2
        · rw [if_neg hpar] at h
          by_cases hint : (lexInteger (c :: rest)).1 ≠ []
          · rw [if_pos hint] at h
            obtain ⟨ts2, hts2, _⟩ := map_eq_ok _ _ _ h
            have hdrop : ('.' : Char) ∉ (c :: rest).dropWhile isDigitCh :=
              ih _ ts2 (by simpa [lexInteger] using hts2)
            intro hmem
            rw [← List.takeWhile_append_dropWhile isDigitCh (c :: rest)] at hmem
            rcases List.mem_append.mp hmem with hm | hm
            · exact absurd (List.mem_takeWhile_imp hm) (by decide)
            · exact hdrop hm
          · rw [if_neg hint] at h
            by_cases hid : (lexIdentifier (c :: rest)).1 ≠ []
            · rw [if_pos hid] at h
              obtain ⟨ts2, hts2, _⟩ := map_eq_ok _ _ _ h
              by_cases hst : isIdentStart c = true
              · have hdrop : ('.' : Char) ∉ rest.dropWhile isIdentCont :=
                  ih _ ts2 (by simpa [lexIdentifier, hst] using hts2)
                have hcne : c ≠ '.' := by
                  intro hc
                  subst hc
                  simp [isIdentStart] at hst
                intro hmem
                rcases List.mem_cons.mp hmem with heq | hmem2
                · exact hcne heq.symm
                · rw [← List.takeWhile_append_dropWhile isIdentCont rest] at hmem2
                  rcases List.mem_append.mp hmem2 with hm | hm
                  · exact absurd (List.mem_takeWhile_imp hm) (by decide)
                  · exact hdrop hm
              · simp [lexIdentifier, hst] at hid
            · rw [if_neg hid] at h
              simp at h

theorem dot_mem_pretty (f : Sexp) (s : Option Sexp) :
    ('.' : Char) ∈ (pretty (Sexp.pair f s)).data := by
  cases s with
  | none =>
    show ('.' : Char) ∈ ((("(") ++ pretty f ++ (" . NIL)")).data)
    simp [String.data_append]
  | some s2 =>
    show ('.' : Char) ∈ ((("(") ++ pretty f ++ (" . ") ++ pretty s2 ++ (")")).data)
    simp [String.data_append]

/-- C6, counterexample: the round-trip fails at the re-lexing stage on the
already well-formed program `(1)`: parsing it yields the one-element list
`(1 . NIL)` in dotted-pair rendering, and `lex` rejects that rendering with
an unknown-token error at the bare `.`. -/
theorem spec_c6_counterexample :
    lex ("(1)") = .ok [Token.mk ("(") .syn, Token.mk ("1") .integer, Token.mk (")") .syn]
    ∧ parse 9 [Token.mk ("(") .syn, Token.mk ("1") .integer, Token.mk (")") .syn] 0
        = .ok (2, some (.pair (.atom (Token.mk ("1") .integer)) none))
    ∧ pretty (.pair (.atom (Token.mk ("1") .integer)) none) = ("(1 . NIL)")
    ∧ lex ("(1 . NIL)") = .error (("Unknown token near ") ++ (". NIL)")) :=
  ⟨rfl, rfl, rfl, rfl⟩

/-- C6, amended: the parse→pretty→re-lex round trip never succeeds on a
nonempty form: every `Sexp` the parser can return for a nonempty form is a
`Pair`, the pretty-printer renders every `Pair` with a bare `.` separator,
and `lex` has no rule for `.`, so re-lexing the pretty output of any `Pair`
fails (at any fuel) rather than reproducing the tree. -/
theorem spec_c6_amended :
    ∀ (first : Sexp) (second : Option Sexp) (fuel : Nat),
    (lexList fuel (pretty (Sexp.pair first second)).data).isOk = false := by
  intro first second fuel
  cases hok : lexList fuel (pretty (Sexp.pair first second)).data with
  | error e => rfl
  | ok ts =>
    exact absurd (dot_mem_pretty first second)
      (lexList_ok_no_dot fuel (pretty (Sexp.pair first second)).data ts hok)

/-! ### C8 -/

theorem span_append (p : Char → Bool) (l rest : List Char)
    (hall : ∀ c ∈ l, p c = true)
    (hb : rest = [] ∨ ∃ c2 rest2, rest = c2 :: rest2 ∧ p c2 = false) :
    (l ++ rest).takeWhile p = l ∧ (l ++ rest).dropWhile p = rest := by
  induction l with
  | nil =>
    rcases hb with rfl | ⟨c2, rest2, rfl, hp⟩
    · simp
    · simp [List.takeWhile_cons, List.dropWhile_cons, hp]
  | cons a l2 ih =>
    have ha := hall a (by simp)
    have ih2 := ih (fun c hc => hall c (by simp [hc]))
    simp [List.takeWhile_cons, List.dropWhile_cons, ha, ih2.1, ih2.2]

theorem ws_chars (c : Char) (h : isWhitespaceCh c = true) :
    ((c = ' ' ∨ c = '\n') ∨ c = '\t') ∨ c = '\r' := by
  simpa [isWhitespaceCh] using h

theorem digit_not_ws (c : Char) (h : isDigitCh c = true) : isWhitespaceCh c = false := by
  cases hw : isWhitespaceCh c with
  | false => rfl
  | true =>
    rcases ws_chars c hw with ((rfl | rfl) | rfl) | rfl <;> exact absurd h (by decide)

theorem digit_not_paren (c : Char) (h : isDigitCh c = true) : ¬(c = '(' ∨ c = ')') := by
  rintro (rfl | rfl) <;> exact absurd h (by decide)

theorem identStart_not_ws (c : Char) (h : isIdentStart c = true) :
    isWhitespaceCh c = false := by
  cases hw : isWhitespaceCh c with
  | false => rfl
  | true =>
    rcases ws_chars c hw with ((rfl | rfl) | rfl) | rfl <;> exact absurd h (by decide)

theorem identStart_not_paren (c : Char) (h : isIdentStart c = true) :
    ¬(c = '(' ∨ c = ')') := by
  rintro (rfl | rfl) <;> exact absurd h (by decide)

theorem identStart_not_digit (c : Char) (h : isIdentStart c = true) :
    isDigitCh c = false := by
  cases hd : isDigitCh c with
  | false => rfl
  | true =>
    exfalso
    have hd2 : '0' ≤ c ∧ c ≤ '9' := by simpa [isDigitCh] using hd
    have h2 : ((((((((('a' ≤ c ∧ c ≤ 'z') ∨ ('A' ≤ c ∧ c ≤ 'Z')) ∨ c = '+') ∨ c = '-')
        ∨ c = '*') ∨ c = '&') ∨ c = '$') ∨ c = '%') ∨ c = '<') ∨ c = '=' := by
      simpa [isIdentStart] using h
    rcases h2 with ((((((((⟨ha, _⟩ | ⟨hA, _⟩) | rfl) | rfl) | rfl) | rfl) | rfl) | rfl)
        | rfl) | rfl
    · exact absurd (le_trans ha hd2.2) (by decide)
    · exact absurd (le_trans hA hd2.2) (by decide)
    · exact absurd hd2.1 (by decide)
    · exact absurd hd2.1 (by decide)
    · exact absurd hd2.1 (by decide)
    · exact absurd hd2.1 (by decide)
    · exact absurd hd2.1 (by decide)
    · exact absurd hd2.1 (by decide)
    · exact absurd hd2.2 (by decide)
    · exact absurd hd2.2 (by decide)

theorem ws_not_identCont (c : Char) (h : isWhitespaceCh c = true) :
    isIdentCont c = false := by
  rcases ws_chars c h with ((rfl | rfl) | rfl) | rfl <;> decide

theorem ws_not_digit (c : Char) (h : isWhitespaceCh c = true) : isDigitCh c = false := by
  rcases ws_chars c h with ((rfl | rfl) | rfl) | rfl <;> decide

theorem lexList_lexeme_step (l : List Char) (t : Token) (rest : List Char) (fuel : Nat)
    (hv : validLexeme l t)
    (hb : rest = [] ∨ ∃ c2 rest2, rest = c2 :: rest2 ∧ isWhitespaceCh c2 = true) :
    lexList (fuel + 1) (l ++ rest) = (lexList fuel rest).map (fun ts => t :: ts) := by
  rcases hv with ⟨hne, hall, rfl⟩ | ⟨c, cs, rfl, hst, hall, rfl⟩ | ⟨hl, rfl⟩
  · -- Integer lexeme
    obtain ⟨c, cs, rfl⟩ : ∃ c cs, l = c :: cs := by
      cases l with
      | nil => exact absurd rfl hne
      | cons c cs => exact ⟨c, cs, rfl⟩
    have hc := hall c (by simp)
    have hbd : rest = [] ∨ ∃ c2 rest2, rest = c2 :: rest2 ∧ isDigitCh c2 = false := by
      rcases hb with rfl | ⟨c2, rest2, rfl, hw⟩
      · exact Or.inl rfl
      · exact Or.inr ⟨c2, rest2, rfl, ws_not_digit c2 hw⟩
    have hspan := span_append isDigitCh (c :: cs) rest hall hbd
    simp only [List.cons_append] at hspan ⊢
    simp only [lexList]
    rw [if_neg (by simp [digit_not_ws c hc])]
    rw [if_neg (digit_not_paren c hc)]
    simp only [lexInteger]
    rw [hspan.1, hspan.2]
    rw [if_pos (by simp)]
  · -- Identifier lexeme
    have hbd : rest = [] ∨ ∃ c2 rest2, rest = c2 :: rest2 ∧ isIdentCont c2 = false := by
      rcases hb with rfl | ⟨c2, rest2, rfl, hw⟩
      · exact Or.inl rfl
      · exact Or.inr ⟨c2, rest2, rfl, ws_not_identCont c2 hw⟩
    have hspan := span_append isIdentCont cs rest hall hbd
    simp only [List.cons_append] at hspan ⊢
    simp only [lexList]
    rw [if_neg (by simp [identStart_not_ws c hst])]
    rw [if_neg (identStart_not_paren c hst)]
    simp only [lexInteger]
    rw [List.takeWhile_cons_of_neg (by simp [identStart_not_digit c hst])]
    rw [if_neg (by simp)]
    simp only [lexIdentifier, hst, if_pos]
    rw [hspan.1, hspan.2]
    rw [if_pos (by simp)]
  · -- Syntax lexeme
    rcases hl with rfl | rfl
    · simp only [List.cons_append, List.nil_append, lexList]
      rw [if_neg (by decide)]
      simp
    · simp only [List.cons_append, List.nil_append, lexList]
      rw [if_neg (by decide)]
      simp

theorem lexList_ws_skip (sep : List Char) (fuel : Nat) (l : List Char)
    (hall : ∀ c ∈ sep, isWhitespaceCh c = true) :
    lexList (fuel + sep.length) (sep ++ l) = lexList fuel l := by
  induction sep with
  | nil => simp
  | cons c sep2 ih =>
    have hc := hall c (by simp)
    have ih2 := ih (fun x hx => hall x (by simp [hx]))
    show lexList (fuel + (sep2.length + 1)) (c :: (sep2 ++ l)) = _
    rw [show fuel + (sep2.length + 1) = (fuel + sep2.length) + 1 by omega]
    simp only [lexList]
    rw [if_pos hc]
    exact ih2

theorem lexList_cons_unfold (fuel : Nat) (c : Char) (rest : List Char) :
    lexList (fuel + 1) (c :: rest) =
      if isWhitespaceCh c then lexList fuel rest
      else if c = '(' ∨ c = ')' then
        (lexList fuel rest).map (fun ts => Token.mk (String.mk [c]) .syn :: ts)
      else if (lexInteger (c :: rest)).1 ≠ [] then
        (lexList fuel (lexInteger (c :: rest)).2).map
          (fun ts => Token.mk (String.mk (lexInteger (c :: rest)).1) .integer :: ts)
      else if (lexIdentifier (c :: rest)).1 ≠ [] then
        (lexList fuel (lexIdentifier (c :: rest)).2).map
          (fun ts => Token.mk (String.mk (lexIdentifier (c :: rest)).1) .identifier :: ts)
      else .error (("Unknown token near ") ++ String.mk (c :: rest)) := rfl

theorem lexList_mono (fuel : Nat) :
    ∀ (l : List Char) (ts : List Token),
    lexList fuel l = .ok ts → lexList (fuel + 1) l = .ok ts := by
  induction fuel with
  | zero => intro l ts h; simp [lexList] at h
  | succ f ih =>
    intro l ts h
    cases l with
    | nil => simpa [lexList] using h
    | cons c rest =>
      rw [lexList_cons_unfold] at h ⊢
      by_cases hws : isWhitespaceCh c = true
      · rw [if_pos hws] at h ⊢
        exact ih rest ts h
      · rw [if_neg hws] at h ⊢
        by_cases hpar : c = '(' ∨ c = ')'
        · rw [if_pos hpar] at h ⊢
          obtain ⟨ts2, h2, hg⟩ := map_eq_ok _ _ _ h
          rw [ih _ _ h2]
          simpa [Except.map] using hg
        · rw [if_neg hpar] at h ⊢
          by_cases hint : (lexInteger (c :: rest)).1 ≠ []
          · rw [if_pos hint] at h ⊢
            obtain ⟨ts2, h2, hg⟩ := map_eq_ok _ _ _ h
            rw [ih _ _ h2]
            simpa [Except.map] using hg
          · rw [if_neg hint] at h ⊢
            by_cases hid : (lexIdentifier (c :: rest)).1 ≠ []
            · rw [if_pos hid] at h ⊢
              obtain ⟨ts2, h2, hg⟩ := map_eq_ok _ _ _ h
              rw [ih _ _ h2]
              simpa [Except.map] using hg
            · rw [if_neg hid] at h
              simp at h

theorem lexList_mono_le (fuel fuel2 : Nat) (hle : fuel ≤ fuel2) (l : List Char)
    (ts : List Token) (hok : lexList fuel l = .ok ts) : lexList fuel2 l = .ok ts := by
  induction fuel2, hle using Nat.le_induction with
  | base => exact hok
  | succ n hn ih => exact lexList_mono n l ts ih

theorem validLexeme_ne_nil (l : List Char) (t : Token) (h : validLexeme l t) : l ≠ [] := by
  rcases h with ⟨hne, _, _⟩ | ⟨c, cs, rfl, _⟩ | ⟨hl, _⟩
  · exact hne
  · simp
  · rcases hl with rfl | rfl <;> simp

/-- C8: the lexer reproduces any whitespace-separated sequence of valid
lexemes exactly. The empty program lexes to no tokens, and for any first
lexeme followed by (separator, lexeme) chunks — each separator a non-empty
run of arbitrary whitespace characters, each lexeme a valid
integer/identifier/parenthesis lexeme — `lexList` (with sufficient fuel,
which `lex` always supplies) returns exactly the corresponding token
sequence with the correct kinds and values, independently of which
whitespace characters or run lengths separate the lexemes. -/
theorem spec_c8_lex_join :
    (∀ fuel : Nat, 1 ≤ fuel → lexList fuel [] = .ok [])
    ∧ (∀ (l0 : List Char) (t0 : Token)
        (items : List ((List Char × List Char) × Token)) (fuel : Nat),
      validLexeme l0 t0 →
      (∀ x ∈ items, sepOk x.1.1 ∧ validLexeme x.1.2 x.2) →
      (l0 ++ joinPieces (items.map (fun x => x.1))).length + 1 ≤ fuel →
      lexList fuel (l0 ++ joinPieces (items.map (fun x => x.1)))
        = .ok (t0 :: items.map (fun x => x.2))) := by
  constructor
  · intro fuel h
    obtain ⟨f, rfl⟩ : ∃ f, fuel = f + 1 := ⟨fuel - 1, by omega⟩
    simp [lexList]
  · intro l0 t0 items
    induction items generalizing l0 t0 with
    | nil =>
      intro fuel hv hall hfuel
      have hne := validLexeme_ne_nil l0 t0 hv
      have hlen : 1 ≤ l0.length := by
        cases l0 with
        | nil => exact absurd rfl hne
        | cons a as => simp
      simp only [List.map_nil, joinPieces] at hfuel ⊢
      obtain ⟨f, rfl⟩ : ∃ f, fuel = f + 1 := ⟨fuel - 1, by omega⟩
      rw [lexList_lexeme_step l0 t0 [] f hv (Or.inl rfl)]
      obtain ⟨f2, rfl⟩ : ∃ f2, f = f2 + 1 := by
        simp at hfuel
        exact ⟨f - 1, by omega⟩
      simp [lexList, Except.map]
    | cons x items2 ih =>
      intro fuel hv hall hfuel
      obtain ⟨⟨sep, lx⟩, tk⟩ := x
      obtain ⟨⟨hsepne, hsepws⟩, hvlx⟩ := hall (((sep, lx), tk)) (by simp)
      have hall2 : ∀ y ∈ items2, sepOk y.1.1 ∧ validLexeme y.1.2 y.2 :=
        fun y hy => hall y (by simp [hy])
      simp only [List.map_cons, joinPieces] at hfuel ⊢
      obtain ⟨f, rfl⟩ : ∃ f, fuel = f + 1 := ⟨fuel - 1, by omega⟩
      have hbd : sep ++ (lx ++ joinPieces (items2.map (fun x => x.1))) = []
          ∨ ∃ c2 rest2, sep ++ (lx ++ joinPieces (items2.map (fun x => x.1)))
            = c2 :: rest2 ∧ isWhitespaceCh c2 = true := by
        cases sep with
        | nil => exact absurd rfl hsepne
        | cons c2 sep2 =>
          exact Or.inr ⟨c2, sep2 ++ (lx ++ joinPieces (items2.map (fun x => x.1))),
            by simp, hsepws c2 (by simp)⟩
      rw [lexList_lexeme_step l0 t0 _ f hv hbd]
      have hl0 : 1 ≤ l0.length := by
        cases l0 with
        | nil => exact absurd rfl (validLexeme_ne_nil _ _ hv)
        | cons a as => simp
      have hflen : sep.length ≤ f := by
        simp [List.length_append] at hfuel
        omega
      rw [show f = (f - sep.length) + sep.length by omega]
      rw [lexList_ws_skip sep (f - sep.length) _ hsepws]
      rw [ih lx tk (f - sep.length) hvlx hall2 (by simp [List.length_append] at hfuel ⊢; omega)]
      rfl

/-- C8, witness: `+a 42` (identifier, space, integer) lexes to exactly
those two tokens. -/
theorem spec_c8_witness :
    lexList 6 ['+', 'a', ' ', '4', '2']
      = .ok [Token.mk ("+a") .identifier, Token.mk ("42") .integer] :=
  spec_c8_lex_join.2 ['+', 'a'] (Token.mk ("+a") .identifier)
    [(([' '], ['4', '2']), Token.mk ("42") .integer)] 6
    (Or.inr (Or.inl ⟨'+', ['a'], rfl, by decide, by decide, rfl⟩))
    (by
      intro x hx
      simp only [List.mem_singleton] at hx
      subst hx
      exact ⟨⟨by decide, by decide⟩, Or.inl ⟨by decide, by decide, rfl⟩⟩)
    (by decide)
